import Mathlib

/-!
Verification of `memnn/preprocess.py` (bAbI data preparation).

The Python source is shallowly embedded: strings become `List Char`,
fallible operations (unpacking, `int()`, dict lookup, list indexing,
`reduce` on an empty list) return `Option`, and the `parse_stories`
loop becomes a fold over an explicit state.
-/

namespace Babi

/-- A token: one fragment produced by `tokenize` (a word or a punctuation run). -/
abbrev Token := List Char

/-- Python regex `\w` for ASCII text: letters, digits and underscore.
`\W` is its negation. -/
def isWordChar (c : Char) : Bool :=
  (decide ('a' ≤ c) && decide (c ≤ 'z')) ||
  (decide ('A' ≤ c) && decide (c ≤ 'Z')) ||
  (decide ('0' ≤ c) && decide (c ≤ '9')) ||
  c == '_'

/-- The ASCII whitespace characters stripped by Python `str.strip()`. -/
def isPySpace (c : Char) : Bool :=
  c == ' ' || c == '\t' || c == '\n' || c == '\r' || c == '\x0b' || c == '\x0c'

/-- `re.split('(\W+)?', sent)` with the separator group captured: the string cut
into maximal runs of characters of the same `\w` / `\W` classification
(under the pre-3.7 `re.split` semantics assumed by the function's own doctest,
where the zero-width match of the optional group never splits).  `re.split`
additionally yields empty fragments at the boundaries; those are dropped by the
strip-and-filter step of `tokenize` anyway, so only the nonempty runs appear here. -/
def splitRuns : List Char → List (List Char)
  | [] => []
  | c :: cs =>
    match splitRuns cs with
    | (d :: r) :: rs =>
      if isWordChar c == isWordChar d then (c :: d :: r) :: rs else [c] :: (d :: r) :: rs
    | rs => [c] :: rs

/-- Python `str.strip()`: drop leading and trailing whitespace. -/
def pyStrip (l : List Char) : List Char :=
  ((l.dropWhile isPySpace).reverse.dropWhile isPySpace).reverse

/-- `tokenize(sent)` from `preprocess.py`:
`[x.strip() for x in re.split('(\W+)?', sent) if x.strip()]`. -/
def tokenize (sent : List Char) : List Token :=
  ((splitRuns sent).map pyStrip).filter (fun x => !x.isEmpty)

theorem splitRuns_cons (c : Char) (cs : List Char) :
    splitRuns (c :: cs) =
      match splitRuns cs with
      | (d :: r) :: rs =>
        if isWordChar c == isWordChar d then (c :: d :: r) :: rs else [c] :: (d :: r) :: rs
      | rs => [c] :: rs := rfl

/-- Every run produced by `splitRuns` is nonempty and homogeneous: all of its
characters have the same `isWordChar` classification. -/
theorem splitRuns_runs (l : List Char) :
    ∀ r ∈ splitRuns l, ∃ b, r ≠ [] ∧ ∀ c ∈ r, isWordChar c = b := by
  induction l with
  | nil => intro r hr; simp [splitRuns] at hr
  | cons c cs ih =>
    intro r hr
    rw [splitRuns_cons] at hr
    rcases h : splitRuns cs with _ | ⟨r0, rs⟩
    · rw [h] at hr
      simp only [List.mem_singleton] at hr
      exact ⟨isWordChar c, by simp [hr]⟩
    · rcases r0 with _ | ⟨d, r0'⟩
      · rw [h] at hr
        simp only [List.mem_cons] at hr
        rcases hr with rfl | hr
        · exact ⟨isWordChar c, by simp⟩
        · exact ih r (by rw [h]; exact List.mem_cons.mpr hr)
      · rw [h] at hr
        dsimp only at hr
        by_cases hcd : isWordChar c == isWordChar d
        · rw [if_pos hcd] at hr
          simp only [List.mem_cons] at hr
          rcases hr with rfl | hr
          · rcases ih (d :: r0') (by rw [h]; exact List.mem_cons_self _ _) with ⟨b, _, hb⟩
            refine ⟨b, by simp, ?_⟩
            intro x hx
            rcases List.mem_cons.1 hx with rfl | hx
            · have := hb d (List.mem_cons_self _ _)
              rw [← this]; exact (beq_iff_eq.mp hcd)
            · exact hb x hx
          · exact ih r (by rw [h]; exact List.mem_cons_of_mem _ hr)
        · rw [if_neg hcd] at hr
          simp only [List.mem_cons] at hr
          rcases hr with rfl | hr
          · exact ⟨isWordChar c, by simp⟩
          · exact ih r (by rw [h]; exact List.mem_cons.mpr hr)

theorem dropWhile_head_not (p : Char → Bool) (l : List Char) :
    ∀ c, (l.dropWhile p).head? = some c → p c = false := by
  induction l with
  | nil => simp [List.dropWhile]
  | cons a as ih =>
    intro c hc
    rw [List.dropWhile_cons] at hc
    by_cases hp : p a
    · rw [if_pos hp] at hc; exact ih c hc
    · rw [if_neg hp] at hc
      simp only [List.head?_cons, Option.some.injEq] at hc
      subst hc
      simpa using hp

theorem mem_pyStrip {c : Char} {l : List Char} (h : c ∈ pyStrip l) : c ∈ l := by
  unfold pyStrip at h
  rw [List.mem_reverse] at h
  have h1 : c ∈ (l.dropWhile isPySpace).reverse := (List.dropWhile_sublist _).subset h
  rw [List.mem_reverse] at h1
  exact (List.dropWhile_sublist _).subset h1

theorem pyStrip_has_nonspace {l : List Char} (h : pyStrip l ≠ []) :
    ∃ c ∈ pyStrip l, isPySpace c = false := by
  unfold pyStrip at *
  have hXne : (l.dropWhile isPySpace).reverse.dropWhile isPySpace ≠ [] := by
    intro h0
    apply h
    rw [h0]
    rfl
  refine ⟨((l.dropWhile isPySpace).reverse.dropWhile isPySpace).head hXne, ?_, ?_⟩
  · rw [List.mem_reverse]
    exact List.head_mem hXne
  · exact dropWhile_head_not isPySpace (l.dropWhile isPySpace).reverse _ (List.head?_eq_head hXne)

/-- C1: `tokenize("Bob dropped the apple. Where is the apple?")` yields exactly
`["Bob","dropped","the","apple",".","Where","is","the","apple","?"]`; and for
every input, each produced token is a nonempty, not-whitespace-only fragment
that lies entirely inside one run of word characters or one run of non-word
characters (so each punctuation run stays its own token and empty or
whitespace-only fragments are discarded). -/
theorem tokenize_example_and_runs :
    tokenize ("Bob dropped the apple. Where is the apple?".data) =
      ["Bob".data, "dropped".data, "the".data, "apple".data, ".".data,
       "Where".data, "is".data, "the".data, "apple".data, "?".data] ∧
    ∀ (s : List Char) (t : Token), t ∈ tokenize s →
      t ≠ [] ∧ (∃ c ∈ t, isPySpace c = false) ∧ ∃ b, ∀ c ∈ t, isWordChar c = b := by
  constructor
  · decide
  · intro s t ht
    unfold tokenize at ht
    rw [List.mem_filter] at ht
    obtain ⟨htm, htne⟩ := ht
    rw [List.mem_map] at htm
    obtain ⟨r, hr, rfl⟩ := htm
    have hne : pyStrip r ≠ [] := by
      intro h0
      rw [h0] at htne
      simp at htne
    refine ⟨hne, pyStrip_has_nonspace hne, ?_⟩
    obtain ⟨b, _, hb⟩ := splitRuns_runs s r hr
    exact ⟨b, fun c hc => hb c (mem_pyStrip hc)⟩

/-- Witness for the universally-quantified part of `tokenize_example_and_runs`
at a concrete input. -/
theorem tokenize_example_and_runs_witness :
    ".".data ≠ ([] : Token) ∧ (∃ c ∈ (".".data : Token), isPySpace c = false) ∧
      ∃ b, ∀ c ∈ (".".data : Token), isWordChar c = b :=
  tokenize_example_and_runs.2 ("x a. y".data) (".".data) (by decide)

/-! ## Story parsing (`parse_stories`, `get_stories`) -/

/-- Python `int()` on an ASCII digit string (the line ids and supporting-fact
ids of the bAbI format are unsigned decimal numerals); anything else fails. -/
def parseNat (l : List Char) : Option Nat :=
  if l.isEmpty || !(l.all Char.isDigit) then none
  else some (l.foldl (fun n c => 10 * n + (c.toNat - 48)) 0)

/-- `line.split(' ', 1)`: cut at the first space.  When the line holds no
space, Python returns a one-element list and the two-name unpacking in
`parse_stories` raises, hence `none`. -/
def splitFirstSpace : List Char → Option (List Char × List Char)
  | [] => none
  | c :: cs =>
    if c == ' ' then some ([], cs)
    else (splitFirstSpace cs).map (fun p => (c :: p.1, p.2))

/-- `str.split()` with no argument: split on runs of whitespace, discarding
empty fragments. -/
def splitWhitespace (acc : List Char) : List Char → List (List Char)
  | [] => if acc.isEmpty then [] else [acc.reverse]
  | c :: cs =>
    if isPySpace c then
      if acc.isEmpty then splitWhitespace [] cs
      else acc.reverse :: splitWhitespace [] cs
    else splitWhitespace (c :: acc) cs

/-- `q, a, supporting = line.split('\t')`: the unpacking succeeds only when the
line holds exactly two tabs. -/
def parseQA (l : List Char) : Option (List Char × List Char × List Char) :=
  match l.splitOn '\t' with
  | [q, a, supp] => some (q, a, supp)
  | _ => none

/-- Python list indexing `l[i]`: a negative index counts from the end, and an
index out of range raises `IndexError`, hence `none`. -/
def pyIndex (l : List α) (i : Int) : Option α :=
  let j : Int := if i < 0 then (l.length : Int) + i else i
  if j < 0 then none else l.get? j.toNat

/-- A parsed example: the tuple `(substory, q, a)` appended to `data` by
`parse_stories`.  `substory` is a list of sentences (token lists), `q` the
tokenized question and `a` the verbatim answer field. -/
structure PEx where
  substory : List (List Token)
  q : List Token
  a : List Char
deriving DecidableEq, Repr

/-- The loop state of `parse_stories`: the accumulated `story` buffer and the
emitted `data`.  The empty string that Python appends to `story` after a
question is modelled as the empty token list `[]` (both are falsy in the
`if x` filter below). -/
structure PState where
  story : List (List Token)
  data : List PEx
deriving DecidableEq, Repr

/-- `line.strip()` followed by `nid, line = line.split(' ', 1)` and
`nid = int(nid)`. -/
def parseLine (rawLine : List Char) : Option (Nat × List Char) := do
  let p ← splitFirstSpace (pyStrip rawLine)
  let nid ← parseNat p.1
  pure (nid, p.2)

/-- One iteration of the `parse_stories` loop over a single raw line. -/
def step (only_supporting : Bool) (st : PState) (rawLine : List Char) :
    Option PState := do
  let (nid, line) ← parseLine rawLine
  let story := if nid == 1 then [] else st.story
  if line.contains '\t' then
    let (q, a, supporting) ← parseQA line
    let qtok := tokenize q
    let substory ←
      (if only_supporting then do
        let ids ← (splitWhitespace [] supporting).mapM parseNat
        ids.mapM (fun (i : Nat) => pyIndex story ((i : Int) - 1))
      else
        pure (story.filter (fun x => !x.isEmpty)))
    pure ⟨story ++ [[]], st.data ++ [⟨substory, qtok, a⟩]⟩
  else
    pure ⟨story ++ [tokenize line], st.data⟩

/-- `parse_stories(lines, only_supporting)`: fold the loop over the lines
starting from an empty story and no data. -/
def parse_stories (lines : List (List Char)) (only_supporting : Bool) :
    Option (List PEx) :=
  (lines.foldlM (step only_supporting) ⟨[], []⟩).map PState.data

/-- Python truthiness of the `max_length` argument (`not max_length` is true
exactly when it is `None` or `0`). -/
def truthy : Option Nat → Bool
  | none => false
  | some n => n != 0

/-- A flattened example as returned by `get_stories`: the story sentences
concatenated into one token list. -/
structure Ex where
  story : List Token
  q : List Token
  a : List Char
deriving DecidableEq, Repr

/-- The list comprehension of `get_stories`:
`[(flatten(story), q, answer) for story, q, answer in data
  if not max_length or len(flatten(story)) < max_length]`.
`flatten` is `reduce(lambda x, y: x + y, ·)`, which raises on an empty list
(with a truthy `max_length` the raise happens while evaluating the filter
condition, otherwise while evaluating the output expression — either way a
question with an empty context aborts the call), and equals `List.flatten` on a
nonempty one. -/
def flattenFilter (max_length : Option Nat) : List PEx → Option (List Ex)
  | [] => some []
  | e :: rest =>
    if e.substory.isEmpty then none
    else
      let keep := !truthy max_length ||
        decide (e.substory.flatten.length < max_length.getD 0)
      (flattenFilter max_length rest).map
        (fun r => if keep then ⟨e.substory.flatten, e.q, e.a⟩ :: r else r)

/-- `get_stories(f, only_supporting, max_length)` applied to the lines read
from the file. -/
def get_stories (lines : List (List Char)) (only_supporting : Bool)
    (max_length : Option Nat) : Option (List Ex) :=
  (parse_stories lines only_supporting).bind (flattenFilter max_length)

/-! ## Vocabulary and vectorization (`Data.__init__`, `vectorize_stories`) -/

/-- The tokens contributed by one example to the vocabulary:
`set(story + q + [answer])` unions exactly these. -/
def exTokens (e : Ex) : List Token := e.story ++ e.q ++ [e.a]

/-- All tokens of a dataset, with multiplicity and in corpus order. -/
def allTokens (data : List Ex) : List Token := (data.map exTokens).flatten

/-- Python `sorted(·)` on a list of strings: a sort with respect to the
lexicographic code-point order on `List Char` (Python string comparison). -/
def pySorted (l : List Token) : List Token :=
  l.insertionSort (fun a b => a ≤ b)

/-- `vocab = sorted(vocab_set)` in `Data.__init__`: the set of all tokens of
`train_stories + test_stories`, sorted.  The set is modelled by the
deduplicated token list; the determinism theorem below shows that any other
enumeration order of the same set sorts to the same result. -/
def buildVocab (train test : List Ex) : List Token :=
  pySorted ((allTokens (train ++ test)).dedup)

/-- `self.word_idx = dict((c, i + 1) for i, c in enumerate(vocab))` together
with its lookup `self.word_idx[w]` (`KeyError` becomes `none`).  `buildVocab`
is duplicate-free, so the dict maps each token of `vocab` to its position
plus one. -/
def word_idx (vocab : List Token) (t : Token) : Option Nat :=
  if t ∈ vocab then some (vocab.indexOf t + 1) else none

/-- `self.story_maxlen = max(map(len, (x for x, _, _ in train + test)))`.
(The script's corpora are nonempty; on a nonempty list Python's `max`
agrees with this fold from 0.) -/
def story_maxlen (train test : List Ex) : Nat :=
  ((train ++ test).map (fun e => e.story.length)).foldr max 0

/-- `self.query_maxlen = max(map(len, (x for _, x, _ in train + test)))`. -/
def query_maxlen (train test : List Ex) : Nat :=
  ((train ++ test).map (fun e => e.q.length)).foldr max 0

/-- Modelled from the spec: `keras.preprocessing.sequence.pad_sequences` is
library code not part of this repository; per the spec it left-pads each
sequence with the sentinel id 0 up to `maxlen` and truncates longer sequences
from the left (the library defaults `padding='pre', truncating='pre',
value=0`), here applied to a single row. -/
def pad_sequence (maxlen : Nat) (seq : List Nat) : List Nat :=
  let t := seq.drop (seq.length - maxlen)
  List.replicate (maxlen - t.length) 0 ++ t

/-- `vectorize_stories(data)`: map every story, query and answer token to its
id (a missing token raises `KeyError`, hence `none`), then pad the story and
query rows to the fixed maximum lengths.  The Python loop fills the three
lists in one pass; in the `Option` monad the three traversals are
equivalent. -/
def vectorize_stories (wi : Token → Option Nat) (sml qml : Nat)
    (data : List Ex) :
    Option (List (List Nat) × List (List Nat) × List Nat) := do
  let inputs ← data.mapM (fun e => e.story.mapM wi)
  let queries ← data.mapM (fun e => e.q.mapM wi)
  let answers ← data.mapM (fun e => wi e.a)
  pure (inputs.map (pad_sequence sml), queries.map (pad_sequence qml), answers)

/-- The id-to-token direction of the vocabulary mapping: the inverse of
`word_idx`, recovering the token stored at position `n - 1` of `vocab`. -/
def idx_word (vocab : List Token) (n : Nat) : Option Token :=
  vocab.get? (n - 1)

/-! ## Corpus acquisition (`Data.__init__`, the `try/except` around
`get_file`) -/

/-- The remediation text printed when the download fails. -/
def downloadErrorMessage : String :=
  "Error downloading dataset, please download it manually:\n$ wget http://www.thespermwhale.com/jaseweston/babi/tasks_1-20_v1-2.tar.gz\n$ mv tasks_1-20_v1-2.tar.gz ~/.keras/datasets/babi-tasks-v1-2.tar.gz"

/-- The `try: path = get_file(...) except: print(...); raise` block at the top
of `Data.__init__`.  `get_file` is keras library code, abstracted by its
outcome `fetch` (success with a path, or any raised exception).  The result is
the block's outcome paired with the list of messages it printed. -/
def acquireCorpus {ε π : Type} (fetch : Except ε π) :
    Except ε π × List String :=
  match fetch with
  | Except.ok p => (Except.ok p, [])
  | Except.error e => (Except.error e, [downloadErrorMessage])

/-! ## Theorems about parsing -/

theorem step_reset (os : Bool) (data : List PEx) (l rest : List Char)
    (h : parseLine l = some (1, rest)) (story₁ story₂ : List (List Token)) :
    step os ⟨story₁, data⟩ l = step os ⟨story₂, data⟩ l := by
  unfold step
  rw [h]
  simp

/-- C6: a line whose leading numeric id is 1 resets the story buffer:
processing any sequence of lines that begins with such a line gives the same
result from any two states that differ only in the accumulated story, so no
sentence accumulated before the reset can appear in any example emitted at or
after it. -/
theorem reset_no_leakage (os : Bool) (l : List Char) (ls : List (List Char))
    (rest : List Char) (h : parseLine l = some (1, rest))
    (story₁ story₂ : List (List Token)) (data : List PEx) :
    List.foldlM (step os) (PState.mk story₁ data) (l :: ls) =
      List.foldlM (step os) (PState.mk story₂ data) (l :: ls) := by
  rw [List.foldlM_cons, List.foldlM_cons, step_reset os data l rest h story₁ story₂]

/-- Witness for `reset_no_leakage`: a concrete id-1 line wipes a concrete
previously accumulated story. -/
theorem reset_no_leakage_witness :
    List.foldlM (step false) (PState.mk [["old".data]] [])
        ["1 Bob went home.".data] =
      List.foldlM (step false) (PState.mk [] []) ["1 Bob went home.".data] :=
  reset_no_leakage false ("1 Bob went home.".data) [] ("Bob went home.".data)
    (by decide) [["old".data]] [] []

/-- C9: a failed corpus acquisition is caught, the manual-download remediation
message is printed exactly once, and the original exception is re-raised
unchanged; a successful acquisition prints nothing and raises nothing. -/
theorem acquire_catch_print_reraise (ε π : Type) (fetch : Except ε π) :
    (∀ e, fetch = Except.error e →
      acquireCorpus fetch = (Except.error e, [downloadErrorMessage])) ∧
    (∀ p, fetch = Except.ok p → acquireCorpus fetch = (Except.ok p, [])) := by
  constructor
  · rintro e rfl
    rfl
  · rintro p rfl
    rfl

/-- Witness for `acquire_catch_print_reraise` on a concrete failure and a
concrete success. -/
theorem acquire_catch_print_reraise_witness :
    acquireCorpus (Except.error 7 : Except Nat Nat) =
      (Except.error 7, [downloadErrorMessage]) ∧
    acquireCorpus (Except.ok 3 : Except Nat Nat) = (Except.ok 3, []) :=
  ⟨(acquire_catch_print_reraise Nat Nat (Except.error 7)).1 7 rfl,
   (acquire_catch_print_reraise Nat Nat (Except.ok 3)).2 3 rfl⟩

/-- The transformation applied by `get_stories` to each kept example:
flatten the context into a single token sequence. -/
def flatEx (e : PEx) : Ex := ⟨e.substory.flatten, e.q, e.a⟩

theorem flattenFilter_falsy (ml : Option Nat) (hml : truthy ml = false) :
    ∀ parsed : List PEx, (∀ e ∈ parsed, e.substory ≠ []) →
      flattenFilter ml parsed = some (parsed.map flatEx) := by
  intro parsed
  induction parsed with
  | nil => intro _; rfl
  | cons e rest ih =>
    intro hne
    have he : e.substory ≠ [] := hne e (List.mem_cons_self _ _)
    unfold flattenFilter
    rw [if_neg (by simpa using he)]
    rw [ih (fun x hx => hne x (List.mem_cons_of_mem _ hx))]
    simp [hml, flatEx]

theorem flattenFilter_pos (n : Nat) (hn : 0 < n) :
    ∀ parsed : List PEx, (∀ e ∈ parsed, e.substory ≠ []) →
      flattenFilter (some n) parsed =
        some ((parsed.filter
          (fun e => decide (e.substory.flatten.length < n))).map flatEx) := by
  intro parsed
  induction parsed with
  | nil => intro _; rfl
  | cons e rest ih =>
    intro hne
    have he : e.substory ≠ [] := hne e (List.mem_cons_self _ _)
    unfold flattenFilter
    rw [if_neg (by simpa using he)]
    rw [ih (fun x hx => hne x (List.mem_cons_of_mem _ hx))]
    have htr : truthy (some n) = true := by
      simp [truthy]
      omega
    rw [List.filter_cons]
    cases hdec : decide (e.substory.flatten.length < n) with
    | true => simp [htr, hdec, flatEx, -List.length_flatten]
    | false => simp [htr, hdec, flatEx, -List.length_flatten]

/-- C10: `get_stories` keeps exactly the examples whose flattened story has
strictly fewer than `max_length` tokens (one with exactly `max_length` tokens
is discarded), keeps every example when `max_length` is `None` or `0`, and
the context of each kept example is the in-order concatenation of its context
sentences. -/
theorem get_stories_keeps_strictly_shorter
    (lines : List (List Char)) (os : Bool) (parsed : List PEx)
    (hp : parse_stories lines os = some parsed)
    (hne : ∀ e ∈ parsed, e.substory ≠ []) :
    get_stories lines os none = some (parsed.map flatEx) ∧
    get_stories lines os (some 0) = some (parsed.map flatEx) ∧
    ∀ n, 0 < n → get_stories lines os (some n) =
      some ((parsed.filter
        (fun e => decide (e.substory.flatten.length < n))).map flatEx) := by
  refine ⟨?_, ?_, ?_⟩
  · show (parse_stories lines os).bind (flattenFilter none) = _
    rw [hp]
    exact flattenFilter_falsy none rfl parsed hne
  · show (parse_stories lines os).bind (flattenFilter (some 0)) = _
    rw [hp]
    exact flattenFilter_falsy (some 0) rfl parsed hne
  · intro n hn
    show (parse_stories lines os).bind (flattenFilter (some n)) = _
    rw [hp]
    exact flattenFilter_pos n hn parsed hne

/-- Witness for `get_stories_keeps_strictly_shorter` on a concrete two-line
story file. -/
theorem get_stories_keeps_strictly_shorter_witness :
    get_stories ["1 Bob got milk.".data,
        "2 Where is Bob?\tkitchen\t1".data] false none =
      some [Ex.mk ["Bob".data, "got".data, "milk".data, ".".data]
        ["Where".data, "is".data, "Bob".data, "?".data] ("kitchen".data)] := by
  have h := get_stories_keeps_strictly_shorter
    ["1 Bob got milk.".data, "2 Where is Bob?\tkitchen\t1".data] false
    [PEx.mk [["Bob".data, "got".data, "milk".data, ".".data]]
      ["Where".data, "is".data, "Bob".data, "?".data] ("kitchen".data)]
    (by decide) (by decide)
  simpa [flatEx] using h.1

/-! ## Theorems about vectorization -/

theorem mapM_some_length {α β : Type} (f : α → Option β) :
    ∀ (l : List α) (r : List β), l.mapM f = some r → r.length = l.length := by
  intro l
  induction l with
  | nil =>
    intro r h
    simp only [List.mapM_nil, Option.pure_def, Option.some.injEq] at h
    subst h
    rfl
  | cons a as ih =>
    intro r h
    simp only [List.mapM_cons, Option.pure_def, Option.bind_eq_bind,
      Option.bind_eq_some, Option.some.injEq] at h
    obtain ⟨b, hb, bs, hbs, rfl⟩ := h
    simp [ih bs hbs]

theorem vectorize_stories_eq (wi : Token → Option Nat) (sml qml : Nat)
    (data : List Ex) (is qs : List (List Nat)) (ans : List Nat)
    (h : vectorize_stories wi sml qml data = some (is, qs, ans)) :
    ∃ inputs queries,
      data.mapM (fun e => e.story.mapM wi) = some inputs ∧
      data.mapM (fun e => e.q.mapM wi) = some queries ∧
      data.mapM (fun e => wi e.a) = some ans ∧
      is = inputs.map (pad_sequence sml) ∧
      qs = queries.map (pad_sequence qml) := by
  unfold vectorize_stories at h
  simp only [Option.pure_def, Option.bind_eq_bind, Option.bind_eq_some,
    Option.some.injEq, Prod.mk.injEq] at h
  obtain ⟨inputs, hi, queries, hq, answers, ha, h1, h2, h3⟩ := h
  subst h3
  exact ⟨inputs, queries, hi, hq, ha, h1.symm, h2.symm⟩

theorem pad_sequence_of_le (m : Nat) (l : List Nat) (hm : l.length ≤ m) :
    pad_sequence m l = List.replicate (m - l.length) 0 ++ l := by
  unfold pad_sequence
  rw [Nat.sub_eq_zero_of_le hm, List.drop_zero]

theorem pad_sequence_of_ge (m : Nat) (l : List Nat) (hm : m ≤ l.length) :
    pad_sequence m l = l.drop (l.length - m) := by
  show List.replicate (m - (List.drop (l.length - m) l).length) 0 ++
      List.drop (l.length - m) l = List.drop (l.length - m) l
  have ht : (List.drop (l.length - m) l).length = m := by
    rw [List.length_drop]
    omega
  rw [ht, Nat.sub_self]
  rfl

theorem pad_sequence_length (m : Nat) (l : List Nat) :
    (pad_sequence m l).length = m := by
  unfold pad_sequence
  simp only [List.length_append, List.length_replicate, List.length_drop]
  omega

/-- C2: with the maxima computed over train+test, every vectorized story row
has length exactly `story_maxlen`, every question row length exactly
`query_maxlen`, and the vocabulary mapping never assigns the padding id 0 to
any token. -/
theorem row_lengths_and_positive_ids
    (train test data : List Ex) (is qs : List (List Nat)) (ans : List Nat)
    (h : vectorize_stories (word_idx (buildVocab train test))
        (story_maxlen train test) (query_maxlen train test) data =
        some (is, qs, ans)) :
    (∀ row ∈ is, row.length = story_maxlen train test) ∧
    (∀ row ∈ qs, row.length = query_maxlen train test) ∧
    (∀ t n, word_idx (buildVocab train test) t = some n → 0 < n) := by
  obtain ⟨inputs, queries, _, _, _, rfl, rfl⟩ :=
    vectorize_stories_eq _ _ _ _ _ _ _ h
  refine ⟨?_, ?_, ?_⟩
  · intro row hrow
    obtain ⟨raw, _, rfl⟩ := List.mem_map.mp hrow
    exact pad_sequence_length _ _
  · intro row hrow
    obtain ⟨raw, _, rfl⟩ := List.mem_map.mp hrow
    exact pad_sequence_length _ _
  · intro t n hn
    unfold word_idx at hn
    split at hn
    · cases hn
      omega
    · cases hn

/-- A one-example dataset used to instantiate the vectorization theorems. -/
def exA : Ex := Ex.mk ["a".data] ["b".data] ("c".data)

/-- Witness for `row_lengths_and_positive_ids` on the one-example dataset. -/
theorem row_lengths_and_positive_ids_witness :
    (∀ row ∈ [[1]], row.length = story_maxlen [exA] []) ∧
    (∀ row ∈ [[2]], row.length = query_maxlen [exA] []) ∧
    (∀ t n, word_idx (buildVocab [exA] []) t = some n → 0 < n) :=
  row_lengths_and_positive_ids [exA] [] [exA] [[1]] [[2]] [3] (by decide)

/-- C7: a row shorter than the maximum is left-padded with the sentinel 0 (the
original ids occupy the rightmost positions, in order), a longer row is
truncated from the left, and the rows returned by `vectorize_stories` are
exactly the raw id sequences so padded. -/
theorem pad_pre_truncate_pre :
    (∀ (m : Nat) (l : List Nat), l.length ≤ m →
      pad_sequence m l = List.replicate (m - l.length) 0 ++ l) ∧
    (∀ (m : Nat) (l : List Nat), m ≤ l.length →
      pad_sequence m l = l.drop (l.length - m)) ∧
    (∀ wi sml qml (data : List Ex) is qs ans,
      vectorize_stories wi sml qml data = some (is, qs, ans) →
      ∃ rawS rawQ, data.mapM (fun e => e.story.mapM wi) = some rawS ∧
        data.mapM (fun e => e.q.mapM wi) = some rawQ ∧
        is = rawS.map (pad_sequence sml) ∧
        qs = rawQ.map (pad_sequence qml)) := by
  refine ⟨pad_sequence_of_le, pad_sequence_of_ge, ?_⟩
  · intro wi sml qml data is qs ans h
    obtain ⟨inputs, queries, hi, hq, _, rfl, rfl⟩ :=
      vectorize_stories_eq _ _ _ _ _ _ _ h
    exact ⟨inputs, queries, hi, hq, rfl, rfl⟩

/-- Witness for `pad_pre_truncate_pre`: pad `[5]` to width 3 and truncate
`[1, 2, 3, 4]` to width 2, and destructure a concrete vectorization. -/
theorem pad_pre_truncate_pre_witness :
    pad_sequence 3 [5] = List.replicate 2 0 ++ [5] ∧
    pad_sequence 2 [1, 2, 3, 4] = List.drop 2 [1, 2, 3, 4] ∧
    ∃ rawS rawQ,
      List.mapM (fun e => e.story.mapM (word_idx (buildVocab [exA] [])))
        [exA] = some rawS ∧
      List.mapM (fun e => e.q.mapM (word_idx (buildVocab [exA] [])))
        [exA] = some rawQ ∧
      [[1]] = rawS.map (pad_sequence 1) ∧
      [[2]] = rawQ.map (pad_sequence 1) :=
  ⟨pad_pre_truncate_pre.1 3 [5] (by decide),
   pad_pre_truncate_pre.2.1 2 [1, 2, 3, 4] (by decide),
   pad_pre_truncate_pre.2.2 (word_idx (buildVocab [exA] [])) 1 1 [exA]
     [[1]] [[2]] [3] (by decide)⟩

/-- C8: a question line appends exactly one example whose answer is the
tab-separated answer field taken verbatim (the question is tokenized, the
answer is not), and `vectorize_stories` returns the answers as a flat list
holding exactly one answer id per input example, parallel to the story and
question arrays. -/
theorem answer_verbatim_and_parallel :
    (∀ (os : Bool) (st : PState) (l rest q a supp : List Char) (nid : Nat)
        (st' : PState),
      parseLine l = some (nid, rest) →
      rest.contains '\t' = true →
      parseQA rest = some (q, a, supp) →
      step os st l = some st' →
      ∃ substory, st'.data = st.data ++ [PEx.mk substory (tokenize q) a]) ∧
    (∀ (wi : Token → Option Nat) (sml qml : Nat) (data : List Ex)
        (is qs : List (List Nat)) (ans : List Nat),
      vectorize_stories wi sml qml data = some (is, qs, ans) →
      is.length = data.length ∧ qs.length = data.length ∧
        ans.length = data.length ∧
        data.mapM (fun e => wi e.a) = some ans) := by
  constructor
  · intro os st l rest q a supp nid st' hl ht hqa hstep
    unfold step at hstep
    rw [hl] at hstep
    simp only [Option.bind_eq_bind, Option.some_bind] at hstep
    rw [ht] at hstep
    simp only [if_true] at hstep
    rw [hqa] at hstep
    simp only [Option.some_bind] at hstep
    obtain ⟨ss, _, heq⟩ := Option.bind_eq_some.mp hstep
    cases heq
    exact ⟨ss, rfl⟩
  · intro wi sml qml data is qs ans h
    obtain ⟨inputs, queries, hi, hq, ha, rfl, rfl⟩ :=
      vectorize_stories_eq _ _ _ _ _ _ _ h
    have l1 := mapM_some_length _ _ _ hi
    have l2 := mapM_some_length _ _ _ hq
    have l3 := mapM_some_length _ _ _ ha
    exact ⟨by simp [l1], by simp [l2], l3, ha⟩

/-- Witness for `answer_verbatim_and_parallel`: one concrete question line and
one concrete vectorization. -/
theorem answer_verbatim_and_parallel_witness :
    (∃ substory,
      (PState.mk [[]]
        [PEx.mk [] (tokenize ("Where is Bob?".data)) ("kitchen".data)]).data =
      (PState.mk [] []).data ++
        [PEx.mk substory (tokenize ("Where is Bob?".data)) ("kitchen".data)]) ∧
    ([[1]] : List (List Nat)).length = [exA].length ∧
      ([[2]] : List (List Nat)).length = [exA].length ∧
      ([3] : List Nat).length = [exA].length ∧
      [exA].mapM (fun e => word_idx (buildVocab [exA] []) e.a) = some [3] :=
  ⟨answer_verbatim_and_parallel.1 false (PState.mk [] [])
      ("1 Where is Bob?\tkitchen\t1".data) ("Where is Bob?\tkitchen\t1".data)
      ("Where is Bob?".data) ("kitchen".data) ("1".data) 1
      (PState.mk [[]]
        [PEx.mk [] (tokenize ("Where is Bob?".data)) ("kitchen".data)])
      (by decide) (by decide) (by decide) (by decide),
   answer_verbatim_and_parallel.2 (word_idx (buildVocab [exA] [])) 1 1 [exA]
     [[1]] [[2]] [3] (by decide)⟩

theorem pyIndex_of_one_based (story : List (List Token)) (i : Nat)
    (h1 : 1 ≤ i) (h2 : i ≤ story.length) :
    pyIndex story ((i : Int) - 1) = some (story.getD (i - 1) []) := by
  unfold pyIndex
  have hneg : ¬ ((i : Int) - 1 < 0) := by omega
  rw [if_neg hneg, if_neg hneg]
  have htn : ((i : Int) - 1).toNat = i - 1 := by omega
  rw [htn]
  have hlt : i - 1 < story.length := by omega
  rw [List.get?_eq_getElem?, List.getElem?_eq_getElem hlt]
  rw [List.getD_eq_getElem?_getD, List.getElem?_eq_getElem hlt]
  rfl

theorem mapM_pyIndex_getD (story : List (List Token)) :
    ∀ ids : List Nat, (∀ i ∈ ids, 1 ≤ i ∧ i ≤ story.length) →
      ids.mapM (fun (i : Nat) => pyIndex story ((i : Int) - 1)) =
        some (ids.map (fun i => story.getD (i - 1) [])) := by
  intro ids
  induction ids with
  | nil => intro _; rfl
  | cons i is ih =>
    intro h
    obtain ⟨h1, h2⟩ := h i (List.mem_cons_self _ _)
    rw [List.mapM_cons, pyIndex_of_one_based story i h1 h2,
      ih (fun j hj => h j (List.mem_cons_of_mem _ hj))]
    rfl

/-- C3: with `only_supporting` enabled, a question line whose supporting-fact
ids all lie in 1..(length of the current story buffer) emits as context
exactly the story entries at those 1-based indices, in the listed order (and
the story buffer gains the question marker). -/
theorem only_supporting_selects_listed_indices
    (st : PState) (l rest q a supp : List Char) (nid : Nat) (ids : List Nat)
    (hl : parseLine l = some (nid, rest))
    (ht : rest.contains '\t' = true)
    (hqa : parseQA rest = some (q, a, supp))
    (hids : (splitWhitespace [] supp).mapM parseNat = some ids)
    (hrange : ∀ i ∈ ids,
      1 ≤ i ∧ i ≤ (if nid == 1 then [] else st.story).length) :
    step true st l = some (PState.mk
      ((if nid == 1 then [] else st.story) ++ [[]])
      (st.data ++ [PEx.mk
        (ids.map (fun i => (if nid == 1 then [] else st.story).getD (i - 1) []))
        (tokenize q) a])) := by
  unfold step
  rw [hl]
  simp only [Option.bind_eq_bind, Option.some_bind]
  rw [ht]
  simp only [if_true]
  rw [hqa]
  simp only [Option.some_bind, if_true]
  rw [hids]
  simp only [Option.some_bind]
  rw [mapM_pyIndex_getD _ ids hrange]
  rfl

/-- Witness for `only_supporting_selects_listed_indices`: from a two-sentence
story buffer, supporting ids listed as `2 1` select the second then the first
sentence. -/
theorem only_supporting_selects_listed_indices_witness :
    step true
      (PState.mk [["s1".data], ["s2".data]] [])
      ("3 Where is Bob?\tkitchen\t2 1".data) =
    some (PState.mk [["s1".data], ["s2".data], []]
      [PEx.mk [["s2".data], ["s1".data]]
        (tokenize ("Where is Bob?".data)) ("kitchen".data)]) := by
  have h := only_supporting_selects_listed_indices
    (PState.mk [["s1".data], ["s2".data]] [])
    ("3 Where is Bob?\tkitchen\t2 1".data)
    ("Where is Bob?\tkitchen\t2 1".data)
    ("Where is Bob?".data) ("kitchen".data) ("2 1".data) 3 [2, 1]
    (by decide) (by decide) (by decide) (by decide) (by decide)
  simpa using h

theorem indexOf_decEq (t : Token) (l : List Token) :
    l.indexOf t = @List.indexOf Token instBEqOfDecidableEq t l := by
  unfold List.indexOf
  congr 1
  funext x
  by_cases h : x = t
  · subst h
    simp
  · simp [h]

theorem word_idx_mem (vocab : List Token) (t : Token) (h : t ∈ vocab) :
    word_idx vocab t = some (vocab.indexOf t + 1) := by
  unfold word_idx
  rw [if_pos h]

theorem mapM_word_idx (vocab : List Token) :
    ∀ toks : List Token, (∀ t ∈ toks, t ∈ vocab) →
      toks.mapM (word_idx vocab) =
        some (toks.map (fun t => vocab.indexOf t + 1)) := by
  intro toks
  induction toks with
  | nil => intro _; rfl
  | cons t ts ih =>
    intro h
    rw [List.mapM_cons, word_idx_mem vocab t (h t (List.mem_cons_self _ _)),
      ih (fun x hx => h x (List.mem_cons_of_mem _ hx))]
    rfl

theorem idx_word_indexOf (vocab : List Token) (t : Token) (h : t ∈ vocab) :
    idx_word vocab (vocab.indexOf t + 1) = some t := by
  unfold idx_word
  rw [indexOf_decEq]
  have hlt : @List.indexOf Token instBEqOfDecidableEq t vocab < vocab.length :=
    List.indexOf_lt_length.mpr h
  simp only [Nat.add_sub_cancel]
  rw [List.get?_eq_getElem?, List.getElem?_eq_getElem hlt,
    List.getElem_indexOf hlt]

theorem mapM_idx_word (vocab : List Token) :
    ∀ toks : List Token, (∀ t ∈ toks, t ∈ vocab) →
      (toks.map (fun t => vocab.indexOf t + 1)).mapM (idx_word vocab) =
        some toks := by
  intro toks
  induction toks with
  | nil => intro _; rfl
  | cons t ts ih =>
    intro h
    rw [List.map_cons, List.mapM_cons,
      idx_word_indexOf vocab t (h t (List.mem_cons_self _ _)),
      ih (fun x hx => h x (List.mem_cons_of_mem _ hx))]
    rfl

theorem pad_filter (m : Nat) (ids : List Nat) (hlen : ids.length ≤ m)
    (hpos : ∀ n ∈ ids, n ≠ 0) :
    (pad_sequence m ids).filter (fun n => n != 0) = ids := by
  rw [pad_sequence_of_le m ids hlen, List.filter_append, List.filter_replicate]
  rw [List.filter_eq_self.mpr (fun a ha => by simpa using hpos a ha)]
  simp

/-- C4: vectorizing a single example whose tokens all occur in the vocabulary
and mapping each nonzero id of the three outputs back through the inverse of
the token-to-id mapping reproduces the original story tokens, question tokens
and answer token (padding positions carry id 0 and are ignored). -/
theorem vectorize_roundtrip (vocab : List Token) (story q : List Token)
    (a : Token) (sml qml : Nat)
    (hs : ∀ t ∈ story, t ∈ vocab) (hq : ∀ t ∈ q, t ∈ vocab) (ha : a ∈ vocab)
    (hsl : story.length ≤ sml) (hql : q.length ≤ qml) :
    ∃ srow qrow ansid,
      vectorize_stories (word_idx vocab) sml qml [Ex.mk story q a] =
        some ([srow], [qrow], [ansid]) ∧
      (srow.filter (fun n => n != 0)).mapM (idx_word vocab) = some story ∧
      (qrow.filter (fun n => n != 0)).mapM (idx_word vocab) = some q ∧
      idx_word vocab ansid = some a := by
  have hsi := mapM_word_idx vocab story hs
  have hqi := mapM_word_idx vocab q hq
  have hai := word_idx_mem vocab a ha
  refine ⟨pad_sequence sml (story.map (fun t => vocab.indexOf t + 1)),
    pad_sequence qml (q.map (fun t => vocab.indexOf t + 1)),
    vocab.indexOf a + 1, ?_, ?_, ?_, ?_⟩
  · unfold vectorize_stories
    simp only [List.mapM_cons, List.mapM_nil, hsi, hqi, hai, Option.pure_def,
      Option.bind_eq_bind, Option.some_bind, List.map_cons, List.map_nil]
  · rw [pad_filter sml _ (by simpa using hsl)
      (fun n hn => by obtain ⟨t, _, rfl⟩ := List.mem_map.mp hn; omega)]
    exact mapM_idx_word vocab story hs
  · rw [pad_filter qml _ (by simpa using hql)
      (fun n hn => by obtain ⟨t, _, rfl⟩ := List.mem_map.mp hn; omega)]
    exact mapM_idx_word vocab q hq
  · exact idx_word_indexOf vocab a ha

/-- Witness for `vectorize_roundtrip` on a concrete three-token vocabulary. -/
theorem vectorize_roundtrip_witness :
    ∃ srow qrow ansid,
      vectorize_stories (word_idx ["a".data, "b".data, "c".data]) 2 2
          [Ex.mk ["a".data] ["b".data] ("c".data)] =
        some ([srow], [qrow], [ansid]) ∧
      (srow.filter (fun n => n != 0)).mapM
          (idx_word ["a".data, "b".data, "c".data]) = some ["a".data] ∧
      (qrow.filter (fun n => n != 0)).mapM
          (idx_word ["a".data, "b".data, "c".data]) = some ["b".data] ∧
      idx_word ["a".data, "b".data, "c".data] ansid = some ("c".data) :=
  vectorize_roundtrip ["a".data, "b".data, "c".data] ["a".data] ["b".data]
    ("c".data) 2 2 (by decide) (by decide) (by decide) (by decide) (by decide)

/-- C5: vocabulary construction is deterministic — sorting any enumeration
order of the token set yields the same sorted, duplicate-free list, hence
identical id assignments across runs; every token occurring in any story,
question or answer of either split is present in the vocabulary; and the ids
are consecutive positions plus one (1, 2, ... in sorted order). -/
theorem vocab_deterministic_and_complete :
    (∀ l₁ l₂ : List Token, l₁.Perm l₂ → pySorted l₁ = pySorted l₂) ∧
    (∀ (train test : List Ex), ∀ e ∈ train ++ test,
      (∀ t ∈ e.story, t ∈ buildVocab train test) ∧
      (∀ t ∈ e.q, t ∈ buildVocab train test) ∧
      e.a ∈ buildVocab train test) ∧
    (∀ (train test : List Ex) (i : Nat)
        (h : i < (buildVocab train test).length),
      word_idx (buildVocab train test)
          ((buildVocab train test).get ⟨i, h⟩) = some (i + 1)) := by
  have hperm : ∀ l : List Token, (pySorted l).Perm l :=
    fun l => List.perm_insertionSort _ l
  refine ⟨?_, ?_, ?_⟩
  · intro l₁ l₂ hp
    have hs₁ : (pySorted l₁).Sorted (fun a b : Token => a ≤ b) :=
      List.sorted_insertionSort _ l₁
    have hs₂ : (pySorted l₂).Sorted (fun a b : Token => a ≤ b) :=
      List.sorted_insertionSort _ l₂
    exact List.eq_of_perm_of_sorted
      (((hperm l₁).trans hp).trans (hperm l₂).symm) hs₁ hs₂
  · intro train test e he
    have hmem : ∀ t : Token, t ∈ allTokens (train ++ test) →
        t ∈ buildVocab train test := by
      intro t ht
      unfold buildVocab
      rw [(hperm _).mem_iff, List.mem_dedup]
      exact ht
    have base : ∀ t ∈ exTokens e, t ∈ allTokens (train ++ test) := by
      intro t ht
      unfold allTokens
      rw [List.mem_flatten]
      exact ⟨exTokens e, List.mem_map_of_mem _ he, ht⟩
    refine ⟨?_, ?_, ?_⟩
    · intro t ht
      exact hmem t (base t (by unfold exTokens; simp [ht]))
    · intro t ht
      exact hmem t (base t (by unfold exTokens; simp [ht]))
    · exact hmem _ (base _ (by unfold exTokens; simp))
  · intro train test i h
    have hnd : (buildVocab train test).Nodup := by
      unfold buildVocab
      exact ((hperm _).nodup_iff).mpr (List.nodup_dedup _)
    have hmem : (buildVocab train test).get ⟨i, h⟩ ∈ buildVocab train test :=
      List.get_mem _ _ _
    unfold word_idx
    rw [if_pos hmem]
    rw [indexOf_decEq, List.get_eq_getElem]
    rw [List.indexOf_getElem hnd i h]

/-- Witness for `vocab_deterministic_and_complete` on concrete token lists and
the one-example dataset. -/
theorem vocab_deterministic_and_complete_witness :
    pySorted ["b".data, "a".data] = pySorted ["a".data, "b".data] ∧
    ((∀ t ∈ exA.story, t ∈ buildVocab [exA] []) ∧
      (∀ t ∈ exA.q, t ∈ buildVocab [exA] []) ∧
      exA.a ∈ buildVocab [exA] []) ∧
    word_idx (buildVocab [exA] [])
        ((buildVocab [exA] []).get ⟨0, by decide⟩) = some 1 :=
  ⟨vocab_deterministic_and_complete.1 ["b".data, "a".data]
      ["a".data, "b".data] (by decide),
   vocab_deterministic_and_complete.2.1 [exA] [] exA (by decide),
   vocab_deterministic_and_complete.2.2 [exA] [] 0 (by decide)⟩

end Babi
